import Mathlib

/-!
Verification development for the chess rules engine (corentings-chess).

The definitions below are a shallow embedding of the Go sources:
`src/game.go`, `src/position.go`, `src/fen.go` and the move model.
Machine integers (`int`, `int8`, `uint8`, `uint16`) are embedded as `Int`,
with explicit `% 2^w` arithmetic where Go conversions truncate.
Fallible Go functions (returning `error`) are embedded with `Option`
(`none` = error) or with an explicit error flag where the receiver is
mutated.  Go slices and struct values are embedded as Lean lists and
structures.

The files `board.go`, `square.go`, `piece.go`, `color.go`, `bitboard.go`
and `engine.go` of the repository are not under `src/`; definitions that
embed them are marked `Modelled from the spec:` and follow the
specification's description (spec sections 3, 4.1, 4.3, 6).  The
`inCheck` field of `Position` is a cached check flag that none of the
claims observes (it is absent from the FEN text and from the fields the
claims enumerate), so it is omitted from the embedding.
-/

set_option maxRecDepth 10000

/-- Modelled from the spec: a side color, `color ∈ {White, Black, None}`
(spec section 3, entity Piece); `color.go` is not under src/. -/
inductive Color where
  | noColor
  | white
  | black
deriving DecidableEq, Repr

/-- Modelled from the spec: the opposite color; the null-move transition
flips the turn to the other color (spec section 4.3). -/
def Color.other : Color → Color
  | .white => .black
  | .black => .white
  | .noColor => .noColor

/-- Modelled from the spec: piece type,
`type ∈ {King,Queen,Rook,Bishop,Knight,Pawn,None}` (spec section 3). -/
inductive PieceType where
  | noPieceType
  | king
  | queen
  | rook
  | bishop
  | knight
  | pawn
deriving DecidableEq, Repr

/-- Modelled from the spec: a colored piece or the empty piece
(spec section 3, entity Piece). -/
inductive Piece where
  | noPiece
  | whiteKing | whiteQueen | whiteRook | whiteBishop | whiteKnight | whitePawn
  | blackKing | blackQueen | blackRook | blackBishop | blackKnight | blackPawn
deriving DecidableEq, Repr

/-- Modelled from the spec: color of a piece (`color=None ⇔ type=None`,
spec section 3). -/
def Piece.color : Piece → Color
  | .noPiece => .noColor
  | .whiteKing | .whiteQueen | .whiteRook | .whiteBishop | .whiteKnight | .whitePawn => .white
  | .blackKing | .blackQueen | .blackRook | .blackBishop | .blackKnight | .blackPawn => .black

/-- Modelled from the spec: type of a piece (spec section 3). -/
def Piece.pieceType : Piece → PieceType
  | .noPiece => .noPieceType
  | .whiteKing | .blackKing => .king
  | .whiteQueen | .blackQueen => .queen
  | .whiteRook | .blackRook => .rook
  | .whiteBishop | .blackBishop => .bishop
  | .whiteKnight | .blackKnight => .knight
  | .whitePawn | .blackPawn => .pawn

/-- Modelled from the spec: a square is a packed index `rank*8 + file`
with a distinguished none sentinel (spec section 3, entity Square);
`square.go` is not under src/.  Go's `Square` is a signed byte. -/
abbrev Square := Int

/-- Modelled from the spec: the none sentinel square. -/
def NoSquare : Square := -1

/-- Modelled from the spec: packed square index `rank*8 + file`
(spec section 3). -/
def NewSquare (file rank : Int) : Square := rank * 8 + file

/-- Modelled from the spec: the rank of a packed square index
(spec section 3). -/
def Square.rank (sq : Square) : Int := sq / 8

/-- Modelled from the spec: the file of a packed square index
(spec section 3). -/
def Square.file (sq : Square) : Int := sq % 8

/-- Modelled from the spec: the `strToSquareMap` square-name table
(`a1 ↦ 0`, …, `h8 ↦ 63`); `square.go` is not under src/.  Returns `none`
for a string that is not one of the 64 square names. -/
def strToSquareIdx (s : String) : Option Square :=
  match s.toList with
  | [f, r] =>
      if 'a' ≤ f ∧ f ≤ 'h' ∧ '1' ≤ r ∧ r ≤ '8' then
        some ((((r.toNat - '1'.toNat) * 8 + (f.toNat - 'a'.toNat) : Nat) : Int))
      else none
  | _ => none

/-- Go map lookup `strToSquareMap[s]`: a missing key yields the zero
value of the `Square` type, which is square 0 (a1). -/
def strToSquare (s : String) : Square := (strToSquareIdx s).getD 0

/-- Modelled from the spec: a square name, file letter then rank digit
(spec section 6, FEN en-passant field; encode uses lower-case letters). -/
def squareName (sq : Square) : String :=
  String.mk [Char.ofNat ('a'.toNat + sq.file.toNat), Char.ofNat ('1'.toNat + sq.rank.toNat)]

/-- Modelled from the spec: the board is a placement of pieces on the 64
squares (spec sections 3 and 4.1); `board.go` is not under src/.  The
list has one entry per packed square index 0..63. -/
structure Board where
  squares : List Piece
deriving DecidableEq, Repr

/-- Modelled from the spec: `piece(square)` placement query, O(1) lookup
(spec section 4.1). -/
def Board.pieceAt (b : Board) (sq : Square) : Piece :=
  b.squares.getD sq.toNat .noPiece

/-- Modelled from the spec: `copy()` yields an independent board with
the same placement (spec section 4.1); with value semantics the copy is
the same value. -/
def Board.copy (b : Board) : Board := b

/-- Modelled from the spec: FEN piece letters, upper-case for White,
lower-case for Black (spec section 6). -/
def pieceFenChar : Piece → Char
  | .whiteKing => 'K' | .whiteQueen => 'Q' | .whiteRook => 'R'
  | .whiteBishop => 'B' | .whiteKnight => 'N' | .whitePawn => 'P'
  | .blackKing => 'k' | .blackQueen => 'q' | .blackRook => 'r'
  | .blackBishop => 'b' | .blackKnight => 'n' | .blackPawn => 'p'
  | .noPiece => '?'

/-- Modelled from the spec: one rank of the FEN placement text, files
a..h, runs of empty squares as digits (spec section 6). -/
def boardRankString (b : Board) (rank : Int) : List Char :=
  let step := fun (acc : List Char × Nat) (file : Int) =>
    let (out, empties) := acc
    match b.pieceAt (NewSquare file rank) with
    | .noPiece => (out, empties + 1)
    | p =>
        let flush := if empties = 0 then out else out ++ [Char.ofNat ('0'.toNat + empties)]
        (flush ++ [pieceFenChar p], 0)
  let (out, empties) := [0, 1, 2, 3, 4, 5, 6, 7].foldl step (([] : List Char), 0)
  if empties = 0 then out else out ++ [Char.ofNat ('0'.toNat + empties)]

/-- Modelled from the spec: `Board.String`, the 8-rank slash-separated
piece placement text, rank 8 first (spec sections 4.1 and 6). -/
def Board.fenString (b : Board) : String :=
  String.mk (List.intercalate ['/']
    ([7, 6, 5, 4, 3, 2, 1, 0].map (fun r => boardRankString b r)))

/-- Embeds the claim-relevant data of `Move` (move model source): origin
square `s1`, destination square `s2` and promotion piece type `promo`.
The PGN annotation fields (`nag`, `comments`, `command`, `number`) are
owned by the PGN layer and not observed by any claim; the tree fields
(`parent`, `children`, `position`) are embedded in `MoveNode` below. -/
structure MoveData where
  s1 : Square
  s2 : Square
  promo : PieceType
deriving DecidableEq, Repr

/-- Embeds `Position` (src/position.go): board, castling rights (their
FEN text, as in the Go `CastleRights` string type), the lazily written
legal-move cache, half-move clock, full-move counter, side to move and
en-passant target square.  The `inCheck` cache flag is omitted (see the
file comment). -/
structure Position where
  board : Board
  castleRights : String
  validMoves : Option (List MoveData)
  halfMoveClock : Int
  moveCount : Int
  turn : Color
  enPassantSquare : Square
deriving DecidableEq, Repr


/-- A default position used only as the `getD` fallback where Go would
dereference a pointer (the games appearing in the theorems below always
have the relevant data present). -/
def defaultPosition : Position :=
  { board := ⟨List.replicate 64 .noPiece⟩, castleRights := "-", validMoves := none,
    halfMoveClock := 0, moveCount := 1, turn := .white, enPassantSquare := NoSquare }

instance : Inhabited Position := ⟨defaultPosition⟩

/-- Embeds Go `strings.Split` with a one-character separator, as a
structural recursion over the characters (the sources only split on a
space or a slash; for the ASCII inputs in scope, Go's byte-wise split
and this character-wise split coincide). -/
def splitOnChar (sep : Char) : List Char → List (List Char)
  | [] => [[]]
  | c :: rest =>
      let r := splitOnChar sep rest
      if c = sep then [] :: r
      else (c :: r.headD []) :: r.tail

/-- Embeds Go `strings.TrimSpace` for ASCII inputs: drop whitespace
from both ends. -/
def charTrim (cs : List Char) : List Char :=
  ((cs.dropWhile Char.isWhitespace).reverse.dropWhile Char.isWhitespace).reverse

/-- Decimal digits of a natural number, most significant first (the
fuel argument makes the recursion structural; `n + 1` fuel always
suffices).  Embeds the digit loop behind Go's integer formatting. -/
def natDigitsAux : Nat → Nat → List Char
  | 0, _ => []
  | _ + 1, 0 => []
  | fuel + 1, n => natDigitsAux fuel (n / 10) ++ [Char.ofNat ('0'.toNat + n % 10)]

/-- Embeds Go's `%d` formatting of an `int`. -/
def intDecString (n : Int) : String :=
  if n < 0 then String.mk ('-' :: natDigitsAux (n.natAbs + 1) n.natAbs)
  else if n = 0 then "0"
  else String.mk (natDigitsAux (n.toNat + 1) n.toNat)

/-- Embeds Go `strconv.Atoi`: an optional sign followed by at least one
digit, consuming the whole string, limited to the 64-bit `int` range. -/
def parseDigits (cs : List Char) : Option Nat :=
  if cs = [] then none
  else if cs.all Char.isDigit then
    some (cs.foldl (fun n c => n * 10 + (c.toNat - '0'.toNat)) 0)
  else none

/-- Embeds Go `strconv.Atoi` (see `parseDigits`). -/
def goAtoi (s : String) : Option Int :=
  let v : Option Int :=
    match s.toList with
    | '+' :: rest => (parseDigits rest).map Int.ofNat
    | '-' :: rest => (parseDigits rest).map (fun n => -(Int.ofNat n))
    | cs => (parseDigits cs).map Int.ofNat
  match v with
  | some n => if -(2 ^ 63) ≤ n ∧ n < 2 ^ 63 then some n else none
  | none => none

/-- Embeds the `fenCharToPiece` lookup table (src/fen.go): the twelve
piece letters; every other character yields `NoPiece`. -/
def fenCharToPiece : Char → Piece
  | 'K' => .whiteKing | 'Q' => .whiteQueen | 'R' => .whiteRook
  | 'B' => .whiteBishop | 'N' => .whiteKnight | 'P' => .whitePawn
  | 'k' => .blackKing | 'q' => .blackQueen | 'r' => .blackRook
  | 'b' => .blackBishop | 'n' => .blackKnight | 'p' => .blackPawn
  | _ => .noPiece

/-- Embeds the loop body of `fenFormRank` (src/fen.go): the running file
count and the accumulated file-to-piece assignments. -/
def fenFormRankAux : List Char → Nat → List (Int × Piece) → Option (Nat × List (Int × Piece))
  | [], count, acc => some (count, acc)
  | c :: rest, count, acc =>
      if '1' ≤ c ∧ c ≤ '8' then
        fenFormRankAux rest (count + (c.toNat - '0'.toNat)) acc
      else
        match fenCharToPiece c with
        | .noPiece => none
        | p => fenFormRankAux rest (count + 1) (acc ++ [(Int.ofNat count, p)])

/-- Embeds `fenFormRank` (src/fen.go): parses one rank of the placement
field; fails on an invalid character or when the file count is not 8. -/
def fenFormRank (rankStr : String) : Option (List (Int × Piece)) :=
  match fenFormRankAux rankStr.toList 0 [] with
  | none => none
  | some (count, acc) => if count = 8 then some acc else none

/-- Embeds the manual rank-splitting loop of `fenBoard` (src/fen.go):
segments between slashes, plus the final segment when it is nonempty
(so a single trailing slash contributes no extra rank). -/
def ranksOf (s : String) : List String :=
  let parts := (splitOnChar '/' s.toList).map String.mk
  if parts.getLast? = some "" then parts.dropLast else parts

/-- The empty board. -/
def emptyBoard : Board := ⟨List.replicate 64 .noPiece⟩

/-- Modelled from the spec: placing a piece on a square of the board
(spec section 4.1; `board.go` is not under src/). -/
def boardSet (b : Board) (sq : Square) (p : Piece) : Board :=
  ⟨b.squares.set sq.toNat p⟩

/-- Embeds `fenBoard` (src/fen.go): splits the placement field into
ranks (the Go loop errors as soon as a ninth rank is stored, which is
equivalent to the final `rankCount != 8` check for the success result),
parses each rank with `fenFormRank`, and assembles the board with rank
`7 - i` for the i-th segment.  `NewBoard` (board.go, not under src/) is
modelled from the spec as building the placement from the mapping. -/
def fenBoardStep (ranks : List String) (acc : Option Board) (i : Nat) : Option Board :=
  match acc with
  | none => none
  | some b =>
      match fenFormRank (ranks.getD i "") with
      | none => none
      | some assigns =>
          some (assigns.foldl
            (fun b fp => boardSet b (NewSquare fp.1 (Int.ofNat (7 - i))) fp.2) b)

/-- The rank loop of `fenBoard`. -/
def fenBoard (boardStr : String) : Option Board :=
  let ranks := ranksOf boardStr
  if ranks.length ≠ 8 then none
  else [0, 1, 2, 3, 4, 5, 6, 7].foldl (fenBoardStep ranks) (some emptyBoard)

/-- The five characters allowed in the FEN castling field. -/
def castleChars : List Char := ['K', 'Q', 'k', 'q', '-']

/-- Embeds `formCastleRights` (src/fen.go): no character of
`K`, `Q`, `k`, `q`, `-` may occur more than once, and every character
must be one of those five. -/
def formCastleRights (castleStr : String) : Option String :=
  if castleChars.any (fun c => 1 < castleStr.toList.count c) then none
  else if castleStr.toList.all (fun r => r ∈ castleChars) then some castleStr
  else none

/-- Embeds `formEnPassant` (src/fen.go): `-` yields the none sentinel;
otherwise the square-name lookup (a missing key yields the zero value,
square a1) must produce a square on rank 3 or rank 6 (0-based ranks 2
and 5).  The side to move is not consulted. -/
def formEnPassant (enPassant : String) : Option Square :=
  if enPassant = "-" then some NoSquare
  else
    let sq := strToSquare enPassant
    if sq = NoSquare ∨ ¬(Square.rank sq = 2 ∨ Square.rank sq = 5) then none
    else some sq

/-- Embeds the `fenTurnMap` table (src/fen.go). -/
def fenTurn (s : String) : Option Color :=
  if s = "w" then some .white else if s = "b" then some .black else none

/-- Embeds `decodeFEN` (src/fen.go): trims the input, splits on single
spaces, requires exactly 6 fields, parses each field, and requires a
half-move clock at least 0 and a full-move count at least 1.  Any
failure yields `none` and no position. -/
def decodeFEN (fen : String) : Option Position :=
  let parts := (splitOnChar ' ' (charTrim fen.toList)).map String.mk
  match parts with
  | [p0, p1, p2, p3, p4, p5] =>
      match fenBoard p0, fenTurn p1, formCastleRights p2, formEnPassant p3,
            goAtoi p4, goAtoi p5 with
      | some b, some turn, some rights, some sq, some halfMoveClock, some moveCount =>
          if halfMoveClock < 0 then none
          else if moveCount < 1 then none
          else some { board := b, turn := turn, castleRights := rights,
                      enPassantSquare := sq, halfMoveClock := halfMoveClock,
                      moveCount := moveCount, validMoves := none }
      | _, _, _, _, _, _ => none
  | _ => none

/-- Modelled from the spec: the FEN turn letter produced by the encode
direction (spec section 6); `color.go` is not under src/. -/
def colorFen : Color → String
  | .white => "w"
  | .black => "b"
  | .noColor => "-"

/-- Embeds `(*Position).String` (src/position.go): the FEN text of the
position, six space-separated fields. -/
def Position.fen (pos : Position) : String :=
  let sq := if pos.enPassantSquare ≠ NoSquare then squareName pos.enPassantSquare else "-"
  pos.board.fenString ++ " " ++ colorFen pos.turn ++ " " ++ pos.castleRights ++ " "
    ++ sq ++ " " ++ intDecString pos.halfMoveClock ++ " " ++ intDecString pos.moveCount

/-- Embeds `(*Position).copy` (src/position.go): copies every field
except the legal-move cache, which the fresh struct leaves unset. -/
def Position.copy (pos : Position) : Position :=
  { board := pos.board.copy, turn := pos.turn, castleRights := pos.castleRights,
    enPassantSquare := pos.enPassantSquare, halfMoveClock := pos.halfMoveClock,
    moveCount := pos.moveCount, validMoves := none }

/-- Embeds `(*Position).ChangeTurn` (src/position.go): writes the
flipped turn into the receiver and returns it; the returned record is
the receiver's new state. -/
def Position.changeTurn (pos : Position) : Position :=
  { pos with turn := pos.turn.other }

/-- Embeds `(*Position).ValidMoves` (src/position.go): on a cache miss
the receiver's cache is written with the engine's move list; the caller
receives a copy of the cached slice (a list value here).  The move
generator `engine.CalcMoves` (engine.go, not under src/) is the
parameter `calcMoves`.  The second component is the receiver's new state. -/
def Position.validMovesOp (calcMoves : Position → List MoveData) (pos : Position) :
    List MoveData × Position :=
  match pos.validMoves with
  | some vm => (vm, pos)
  | none =>
      let vm := calcMoves pos
      (vm, { pos with validMoves := some vm })

/-- Embeds the `m == nil` branch of `(*Position).Update`
(src/position.go): the null move.  The non-nil branch applies
`board.update`, whose code (board.go) is not under src/, and is not
needed by the claims. -/
def Position.updateNull (pos : Position) : Position :=
  let moveCount := if pos.turn = .black then pos.moveCount + 1 else pos.moveCount
  { board := pos.board.copy
    turn := pos.turn.other
    castleRights := pos.castleRights
    enPassantSquare := NoSquare
    halfMoveClock := pos.halfMoveClock + 1
    moveCount := moveCount
    validMoves := none }

/-- Embeds the `Outcome` constants (src/game.go). -/
inductive Outcome where
  | noOutcome
  | whiteWon
  | blackWon
  | draw
deriving DecidableEq, Repr

/-- Embeds the `Method` constants (src/game.go). -/
inductive Method where
  | noMethod
  | checkmate
  | resignation
  | drawOffer
  | stalemate
  | threefoldRepetition
  | fivefoldRepetition
  | fiftyMoveRule
  | seventyFiveMoveRule
  | insufficientMaterial
deriving DecidableEq, Repr

/-- Embeds the tree data of `Move` (move model source): parent link,
ordered children (index 0 = main line), the move data and the position
after the move.  Go's node pointers are embedded as indices into the
arena `Game.nodes`. -/
structure MoveNode where
  parent : Option Nat
  children : List Nat
  s1 : Square
  s2 : Square
  promo : PieceType
  position : Option Position
deriving DecidableEq, Repr

instance : Inhabited MoveNode :=
  ⟨{ parent := none, children := [], s1 := 0, s2 := 0, promo := .noPieceType,
     position := none }⟩

/-- Embeds `Game` (src/game.go): the node arena (pointer structure of
the move tree), the root and cursor indices, the tracked position
`pos`, the outcome, the method, and the `ignoreAutomaticDraws` flag.
The `tagPairs` and `comments` fields are PGN metadata not observed by
any claim and are omitted. -/
structure Game where
  nodes : List MoveNode
  rootMove : Nat
  currentMove : Nat
  pos : Position
  outcome : Outcome
  method : Method
  ignoreAutomaticDraws : Bool
deriving DecidableEq, Repr

/-- Dereferences a node index in the arena (a dangling index yields the
default node; the games in the theorems below only use live indices). -/
def Game.node (g : Game) (id : Nat) : MoveNode := g.nodes.getD id default

/-- Replaces the node stored at an index. -/
def Game.setNode (g : Game) (id : Nat) (n : MoveNode) : Game :=
  { g with nodes := g.nodes.set id n }

/-- Rewrites the children list of the node at an index. -/
def Game.modifyChildren (g : Game) (id : Nat) (f : List Nat → List Nat) : Game :=
  g.setNode id { g.node id with children := f (g.node id).children }

/-- Embeds `(*Position).samePosition` (src/position.go): equality of
board text, turn, castling-rights text and en-passant square. -/
def samePosition (pos pos2 : Position) : Bool :=
  pos.board.fenString == pos2.board.fenString && pos.turn == pos2.turn &&
    pos.castleRights == pos2.castleRights && pos.enPassantSquare == pos2.enPassantSquare

/-- Embeds the main-line walk of `(*Game).Positions` (src/game.go):
collect the position of each node (skipping a nil position), stop at a
node without children, else follow child 0.  The fuel argument bounds
the walk; the trees built by the operations below are acyclic and never
exhaust it. -/
def mainlinePositionsAux (g : Game) : Nat → Nat → List Position
  | 0, _ => []
  | fuel + 1, id =>
      let n := g.node id
      let here := match n.position with | some p => [p] | none => []
      match n.children with
      | [] => here
      | c :: _ => here ++ mainlinePositionsAux g fuel c

/-- Embeds `(*Game).Positions` (src/game.go). -/
def Game.positionsList (g : Game) : List Position :=
  mainlinePositionsAux g (g.nodes.length + 1) g.rootMove

/-- Embeds `(*Game).numOfRepetitions` (src/game.go): the number of
main-line positions equal (as `samePosition`) to the game's tracked
position `g.pos`. -/
def Game.numOfRepetitions (g : Game) : Nat :=
  (g.positionsList).countP (fun p => samePosition g.pos p)

/-- Embeds `(*Game).Draw` (src/game.go).  The Boolean component is true
exactly when the Go method returns an error; the `Game` component is the
receiver's state afterwards (the error paths return before any write). -/
def Game.draw (g : Game) (method : Method) : Game × Bool :=
  match method with
  | .threefoldRepetition =>
      if g.numOfRepetitions < 3 then (g, true)
      else ({ g with outcome := .draw, method := method }, false)
  | .fiftyMoveRule =>
      if g.pos.halfMoveClock < 100 then (g, true)
      else ({ g with outcome := .draw, method := method }, false)
  | .drawOffer => ({ g with outcome := .draw, method := method }, false)
  | _ => (g, true)

/-- Embeds `(*Game).Resign` (src/game.go). -/
def Game.resign (g : Game) (color : Color) : Game :=
  if g.outcome ≠ .noOutcome ∨ color = .noColor then g
  else if color = .white then { g with outcome := .blackWon, method := .resignation }
  else { g with outcome := .whiteWon, method := .resignation }

/-- Modelled from the spec: `hasSufficientMaterial` (spec sections 4.3
and 8; `board.go` is not under src/): any pawn, rook or queen, or a
side holding two minor pieces, is sufficient; bare kings and single
minors are not. -/
def Board.hasSufficientMaterial (b : Board) : Bool :=
  let count := fun (p : Piece) => b.squares.count p
  [Piece.whiteQueen, .whiteRook, .whitePawn, .blackQueen, .blackRook, .blackPawn].any
      (fun p => 0 < count p)
    || 2 ≤ count .whiteBishop + count .whiteKnight
    || 2 ≤ count .blackBishop + count .blackKnight

/-- Embeds `(*Game).evaluatePositionStatus` (src/game.go).  The
parameter `status` stands for the call `g.pos.Status()`, whose code
(engine.go) is not under src/; per spec section 4.2 it is one of
`NoMethod`, `Checkmate`, `Stalemate`. -/
def Game.evaluatePositionStatus (g : Game) (status : Method) : Game :=
  let g1 :=
    if status = .stalemate then { g with method := .stalemate, outcome := .draw }
    else if status = .checkmate then
      { g with method := .checkmate,
               outcome := if g.pos.turn = .white then .blackWon else .whiteWon }
    else g
  if g1.outcome ≠ .noOutcome then g1
  else
    -- The three draw checks read `ignoreAutomaticDraws`, the repetition
    -- count and the position, none of which the preceding updates touch,
    -- so they are read off `g`; the 75-move check reads the possibly
    -- updated `method` field.
    let g2 :=
      if g.ignoreAutomaticDraws = false ∧ 5 ≤ g.numOfRepetitions then
        { g1 with outcome := .draw, method := .fivefoldRepetition }
      else g1
    let g3 :=
      if g.ignoreAutomaticDraws = false ∧ 150 ≤ g.pos.halfMoveClock ∧
          g2.method ≠ .checkmate then
        { g2 with outcome := .draw, method := .seventyFiveMoveRule }
      else g2
    let g4 :=
      if g.ignoreAutomaticDraws = false ∧ g.pos.board.hasSufficientMaterial = false then
        { g3 with outcome := .draw, method := .insufficientMaterial }
      else g3
    g4

/-- Embeds `isMainLine` (src/game.go): a node is on the main line when
it is child 0 of its parent and the parent is on the main line; the
root (no parent) is on the main line.  Fuel bounds the parent walk. -/
def Game.isMainLineAux (g : Game) : Nat → Nat → Bool
  | 0, _ => true
  | fuel + 1, id =>
      match (g.node id).parent with
      | none => true
      | some p => ((g.node p).children.head? == some id) && g.isMainLineAux fuel p

/-- Embeds `isMainLine` with the standard fuel. -/
def Game.isMainLine (g : Game) (id : Nat) : Bool :=
  g.isMainLineAux (g.nodes.length + 1) id

/-- Embeds the walk-up loop of `(*Game).NavigateToMainLine`
(src/game.go): climb to the parent while the current node has a parent
and is not on the main line. -/
def Game.walkUpToMainLine (g : Game) : Nat → Nat → Nat
  | 0, id => id
  | fuel + 1, id =>
      match (g.node id).parent with
      | none => id
      | some p => if g.isMainLine id then id else g.walkUpToMainLine fuel p

/-- Embeds `(*Game).NavigateToMainLine` (src/game.go).  The walk-up
result is bound but, as in the source, not used afterwards: the cursor
is set to the root when the root has no children and to the root's
child 0 otherwise. -/
def Game.navigateToMainLine (g : Game) : Game :=
  let _current := g.walkUpToMainLine (g.nodes.length + 1) g.currentMove
  if (g.node g.rootMove).children.length = 0 then { g with currentMove := g.rootMove }
  else { g with currentMove := (g.node g.rootMove).children.getD 0 g.rootMove }

/-- Embeds `(*Game).GoBack` (src/game.go): move the cursor to the
parent and set `g.pos` to a copy of the parent's position (the games in
the theorems below store a position at every node). -/
def Game.goBack (g : Game) : Game × Bool :=
  match (g.node g.currentMove).parent with
  | some p =>
      ({ g with currentMove := p,
                pos := ((g.node p).position.getD defaultPosition).copy }, true)
  | none => (g, false)

/-- Embeds `(*Game).findExistingMove` (src/game.go): the first child of
the cursor with the same origin, destination and promotion. -/
def Game.findExistingMove (g : Game) (m : MoveData) : Option Nat :=
  (g.node g.currentMove).children.find? (fun cid =>
    let c := g.node cid
    c.s1 == m.s1 && c.s2 == m.s2 && c.promo == m.promo)

/-- Embeds `(*Game).reorderMoveToFront` (src/game.go): rotate the first
occurrence of the target to index 0, keeping the relative order of the
other children; a target that is not a child leaves the list as is. -/
def reorderToFront (children : List Nat) (target : Nat) : List Nat :=
  match children.findIdx? (fun c => c == target) with
  | none => children
  | some i => target :: (children.take i ++ children.drop (i + 1))

/-- Embeds `(*Game).addNewMove` (src/game.go): prepend the new node id
when forcing the main line, else append it. -/
def Game.addNewMove (g : Game) (newId : Nat) (forceMainline : Bool) : Game :=
  if forceMainline then g.modifyChildren g.currentMove (fun cs => newId :: cs)
  else g.modifyChildren g.currentMove (fun cs => cs ++ [newId])

/-- Embeds `(*Game).addOrReorderMove` (src/game.go).  The new node's
parent pointer is set at allocation in `pushMoveCore`; when an existing
child matches, the new node is not inserted into the children list. -/
def Game.addOrReorderMove (g : Game) (newId : Nat) (existing : Option Nat)
    (forceMainline : Bool) : Game :=
  match existing with
  | some e =>
      if forceMainline ∧ (g.node g.currentMove).children.head? ≠ some e then
        g.modifyChildren g.currentMove (fun cs => reorderToFront cs e)
      else g
  | none => g.addNewMove newId forceMainline

/-- Embeds `(*Game).PushMove` (src/game.go) after move parsing: the
parser (`parseAndValidateMove`, spec section 6) returns a freshly
allocated `Move` value, embedded as a fresh arena node; then
`findExistingMove`, `addOrReorderMove`, `updatePosition` (whose
`pos.Update(move)` board transition lives in board.go, not under src/,
and is the parameter `newPos`), the cursor write `g.currentMove = move`,
and `evaluatePositionStatus` (its engine status is the parameter
`status`). -/
def Game.pushMoveCore (g : Game) (m : MoveData) (forceMainline : Bool)
    (newPos : Position) (status : Method) : Game :=
  let newId := g.nodes.length
  let newNode : MoveNode :=
    { parent := some g.currentMove, children := [], s1 := m.s1, s2 := m.s2,
      promo := m.promo, position := none }
  let g1 := { g with nodes := g.nodes ++ [newNode] }
  let existing := g1.findExistingMove m
  let g2 := g1.addOrReorderMove newId existing forceMainline
  let g3 := { g2 with pos := newPos }
  let g4 := g3.setNode newId { g3.node newId with position := some newPos }
  let g5 := { g4 with currentMove := newId }
  g5.evaluatePositionStatus status

/-- Go conversion of an `int` to `uint8` written as one byte. -/
def byteOfInt (n : Int) : Nat := (n % 256).toNat

/-- Go conversion of an `int` to `uint16` written big-endian. -/
def uint16BE (n : Int) : List Nat :=
  [(n % 65536).toNat / 256, (n % 65536).toNat % 256]

/-- The signed byte denoted by a byte value (reading an `int8` back). -/
def int8OfByte (n : Nat) : Int :=
  if n < 128 then (n : Int) else (n : Int) - 256

/-- Modelled from the spec: the piece code of the fixed binary board
layout (spec section 4.1; `board.go` is not under src/). -/
def pieceCode : Piece → Nat
  | .noPiece => 0
  | .whiteKing => 1 | .whiteQueen => 2 | .whiteRook => 3
  | .whiteBishop => 4 | .whiteKnight => 5 | .whitePawn => 6
  | .blackKing => 7 | .blackQueen => 8 | .blackRook => 9
  | .blackBishop => 10 | .blackKnight => 11 | .blackPawn => 12

/-- Modelled from the spec: the decoding of a piece code. -/
def codeToPiece : Nat → Option Piece
  | 0 => some .noPiece
  | 1 => some .whiteKing | 2 => some .whiteQueen | 3 => some .whiteRook
  | 4 => some .whiteBishop | 5 => some .whiteKnight | 6 => some .whitePawn
  | 7 => some .blackKing | 8 => some .blackQueen | 9 => some .blackRook
  | 10 => some .blackBishop | 11 => some .blackKnight | 12 => some .blackPawn
  | _ => none

/-- Modelled from the spec: `Board.MarshalBinary`, the fixed 96-byte
board encoding (spec sections 4.1 and 6).  Spec section 4.1 leaves the
exact layout an implementation choice provided it round-trips; this
embedding writes one piece-code byte per square followed by 32 bytes of
padding to the fixed 96-byte width. -/
def boardMarshalBinary (b : Board) : List Nat :=
  (List.range 64).map (fun i => pieceCode (b.pieceAt (Int.ofNat i))) ++
    List.replicate 32 0

/-- Decodes a list of piece codes; an unknown code is an error. -/
def decodePieces : List Nat → Option (List Piece)
  | [] => some []
  | n :: rest =>
      match codeToPiece n, decodePieces rest with
      | some p, some ps => some (p :: ps)
      | _, _ => none

/-- Modelled from the spec: `Board.UnmarshalBinary`, the inverse of the
96-byte board encoding; an unknown piece code is an error. -/
def boardUnmarshalBinary (data : List Nat) : Option Board :=
  if data.length ≠ 96 then none
  else (decodePieces (data.take 64)).map Board.mk

/-- Embeds `CastleRights.CanCastle` (src/position.go): substring test of
the castling letter in the rights text. -/
def canCastleChar (cr : String) (c : Char) : Bool := cr.toList.contains c

/-- Embeds `(*Position).MarshalBinary` (src/position.go): the 96-byte
board encoding, one byte of half-move clock (an `int` truncated to
`uint8`), the full-move count as a big-endian `uint16`, the en-passant
square as one signed byte, and the flags byte (castling bits, turn bit,
en-passant-present bit). -/
def Position.marshalBinary (pos : Position) : List Nat :=
  let flags :=
    (if canCastleChar pos.castleRights 'K' then 1 else 0) +
    (if canCastleChar pos.castleRights 'Q' then 2 else 0) +
    (if canCastleChar pos.castleRights 'k' then 4 else 0) +
    (if canCastleChar pos.castleRights 'q' then 8 else 0) +
    (if pos.turn = .black then 16 else 0) +
    (if pos.enPassantSquare ≠ NoSquare then 32 else 0)
  boardMarshalBinary pos.board ++ [byteOfInt pos.halfMoveClock] ++
    uint16BE pos.moveCount ++ [byteOfInt pos.enPassantSquare] ++ [flags]

/-- Embeds `(*Position).UnmarshalBinary` (src/position.go): any length
other than 101 is an error; otherwise the fields are read back, the
castling-rights text is rebuilt in the order K, Q, k, q (or `-`), the
turn comes from the flags byte, and the en-passant square is the none
sentinel when its flag bit is clear.  The result describes the receiver
afterwards; a fresh receiver has no move cache. -/
def Position.unmarshalBinary (data : List Nat) : Option Position :=
  if data.length ≠ 101 then none
  else
    match boardUnmarshalBinary (data.take 96) with
    | none => none
    | some board =>
        match data.drop 96 with
        | [b96, b97, b98, b99, b100] =>
            let halfMoveClock := (b96 : Int)
            let moveCount := (b97 * 256 + b98 : Int)
            let ep := int8OfByte b99
            let flags := b100
            let rights :=
              (if flags % 2 = 1 then "K" else "") ++
              (if flags / 2 % 2 = 1 then "Q" else "") ++
              (if flags / 4 % 2 = 1 then "k" else "") ++
              (if flags / 8 % 2 = 1 then "q" else "")
            some { board := board
                   castleRights := if rights = "" then "-" else rights
                   validMoves := none
                   halfMoveClock := halfMoveClock
                   moveCount := moveCount
                   turn := if flags / 16 % 2 = 1 then .black else .white
                   enPassantSquare := if flags / 32 % 2 = 0 then NoSquare else ep }
        | _ => none

/-!
A small slice-heap model for the aliasing behaviour of
`(*Position).ValidMoves`: Go slices have identity, so the model gives
each allocated slice an index into a store.  `validMovesHeap` refines
`Position.validMovesOp` above by making the cache and every returned
slice distinct allocations, exactly as the source allocates
`append([]Move(nil), pos.validMoves...)` for each return value.
-/

/-- A store of allocated move slices; a slice value is its index. -/
abbrev SliceHeap := List (List MoveData)

/-- Allocate a fresh slice holding the given moves; returns the store
and the new slice's index. -/
def allocSlice (h : SliceHeap) (l : List MoveData) : SliceHeap × Nat :=
  (h ++ [l], h.length)

/-- Read a slice's contents. -/
def readSlice (h : SliceHeap) (i : Nat) : List MoveData := h.getD i []

/-- Overwrite a slice's contents in place (a caller mutating a slice it
holds). -/
def writeSlice (h : SliceHeap) (i : Nat) (l : List MoveData) : SliceHeap :=
  h.set i l

/-- Embeds `(*Position).ValidMoves` (src/position.go) against the slice
heap: on a cache miss the engine's move list (`calcMoves`, engine.go,
not under src/) is allocated and its index stored in the cache field;
on every call a fresh copy of the cached contents is allocated and its
index returned.  Result: returned slice index, the receiver's cache
field afterwards, and the store afterwards. -/
def validMovesHeap (calcMoves : List MoveData) (cache : Option Nat) (h : SliceHeap) :
    Nat × Option Nat × SliceHeap :=
  match cache with
  | some cid =>
      let (h1, ret) := allocSlice h (readSlice h cid)
      (ret, some cid, h1)
  | none =>
      let (h1, cid) := allocSlice h calcMoves
      let (h2, ret) := allocSlice h1 (readSlice h1 cid)
      (ret, some cid, h2)

/-- The starting-position FEN constant (src/position.go). -/
def startFEN : String := "rnbqkbnr/pppppppp/8/8/8/8/PPPPPPPP/RNBQKBNR w KQkq - 0 1"

/-- Embeds `StartingPosition` (src/position.go). -/
def StartingPosition : Position := (decodeFEN startFEN).getD defaultPosition

/-- Embeds `NewGame` (src/game.go) with no options: a root node holding
the starting position, cursor at the root, no outcome yet. -/
def NewGame : Game :=
  { nodes := [{ parent := none, children := [], s1 := 0, s2 := 0,
                promo := .noPieceType, position := some StartingPosition }],
    rootMove := 0, currentMove := 0, pos := StartingPosition,
    outcome := .noOutcome, method := .noMethod, ignoreAutomaticDraws := false }

/-- Embeds `NewGame` with the `FEN` option (src/game.go) up to but not
including the option's final `evaluatePositionStatus` call: the decoded
position is written to `g.pos` and to the root node. -/
def seedFEN (fen : String) : Game :=
  let p := (decodeFEN fen).getD defaultPosition
  { NewGame with
    pos := p
    nodes := [{ parent := none, children := [], s1 := 0, s2 := 0,
                promo := .noPieceType, position := some p }] }

/-- A bare-kings FEN with the half-move clock at 150: seventy-five-move
rule and insufficient material hold at once, fivefold repetition does
not (the seeded game has a single main-line position). -/
def kkFEN : String := "7k/8/8/8/8/8/8/7K w - - 150 80"

/-- The game seeded from `kkFEN`, just before its outcome evaluation. -/
def gameKK : Game := seedFEN kkFEN

/-- The outcome evaluation as claim C1 states it: checkmate/stalemate
from the position status take priority; otherwise the FIRST matching
condition among fivefold repetition, seventy-five-move rule and
insufficient material sets outcome and method, and later conditions in
the list do not overwrite it; none matching leaves the game as is. -/
def claimedEvaluatePositionStatus (g : Game) (status : Method) : Game :=
  if status = .stalemate then { g with method := .stalemate, outcome := .draw }
  else if status = .checkmate then
    { g with method := .checkmate,
             outcome := if g.pos.turn = .white then .blackWon else .whiteWon }
  else if 5 ≤ g.numOfRepetitions then
    { g with outcome := .draw, method := .fivefoldRepetition }
  else if 150 ≤ g.pos.halfMoveClock then
    { g with outcome := .draw, method := .seventyFiveMoveRule }
  else if g.pos.board.hasSufficientMaterial = false then
    { g with outcome := .draw, method := .insufficientMaterial }
  else g

/-- The navigation target as claim C4 states it: the nearest node on
the walk up from the cursor (the cursor itself included) that lies on
the main line — which is exactly what the source's walk-up loop
computes before its result is discarded — with the root as default. -/
def claimedMainLineTarget (g : Game) : Nat :=
  g.walkUpToMainLine (g.nodes.length + 1) g.currentMove

/-- A game whose main line is root → 1 → 2 → 3 with the cursor on the
main-line leaf 3. -/
def gameDeepMain : Game :=
  { nodes := [
      { parent := none, children := [1], s1 := 0, s2 := 0,
        promo := .noPieceType, position := some defaultPosition },
      { parent := some 0, children := [2], s1 := 12, s2 := 28,
        promo := .noPieceType, position := some defaultPosition },
      { parent := some 1, children := [3], s1 := 52, s2 := 36,
        promo := .noPieceType, position := some defaultPosition },
      { parent := some 2, children := [], s1 := 6, s2 := 21,
        promo := .noPieceType, position := some defaultPosition }],
    rootMove := 0, currentMove := 3, pos := defaultPosition,
    outcome := .noOutcome, method := .noMethod, ignoreAutomaticDraws := false }

/-- The move e2-e4 (packed squares 12 and 28, no promotion). -/
def moveE4 : MoveData := { s1 := 12, s2 := 28, promo := .noPieceType }

/-- A minimal game: a lone root node holding `defaultPosition`. -/
def gameSmall : Game :=
  { nodes := [{ parent := none, children := [], s1 := 0, s2 := 0,
                promo := .noPieceType, position := some defaultPosition }],
    rootMove := 0, currentMove := 0, pos := defaultPosition,
    outcome := .noOutcome, method := .noMethod, ignoreAutomaticDraws := false }

/-- `gameSmall` after pushing e2-e4. -/
def gameC3push : Game :=
  gameSmall.pushMoveCore moveE4 false defaultPosition .noMethod

/-- `gameC3push` after `GoBack`, the cursor again at the root. -/
def gameC3back : Game := (gameC3push.goBack).1

/-- `gameC3back` after pushing e2-e4 a second time: `findExistingMove`
finds the earlier child, yet the cursor is set to the newly allocated
duplicate node. -/
def gameC3again : Game :=
  gameC3back.pushMoveCore moveE4 false defaultPosition .noMethod

/-- The en-passant field condition as claim C7 states it: absent, or a
square on rank 3 or rank 6 matching the side not to move (rank 3 arises
from a White double push, so Black must be to move; rank 6 conversely). -/
def claimedEnPassantOk (turnField epField : String) : Bool :=
  epField == "-" ||
    match strToSquareIdx epField with
    | some sq =>
        (decide (Square.rank sq = 2) && turnField == "b") ||
        (decide (Square.rank sq = 5) && turnField == "w")
    | none => false

/-- A FEN whose en-passant field names a rank-3 square while White is
to move (the side check the claim demands would reject it). -/
def fenBadEp : String := "rnbqkbnr/pppppppp/8/8/8/8/PPPPPPPP/RNBQKBNR w KQkq e3 0 1"

/-- The amended FEN validity of the placement field: exactly 8 ranks
(the parser tolerates one trailing slash), each describing exactly 8
files — a digit 1..8 stands for that many empty files, a piece letter
for one file. -/
def fenCharWidth (c : Char) : Option Nat :=
  if '1' ≤ c ∧ c ≤ '8' then some (c.toNat - '0'.toNat)
  else if fenCharToPiece c ≠ .noPiece then some 1
  else none

/-- The total width of a rank's characters, or `none` when one is not
a digit 1..8 or a piece letter. -/
def rankWidthSum : List Char → Option Nat
  | [] => some 0
  | c :: rest =>
      match fenCharWidth c, rankWidthSum rest with
      | some w, some sum => some (w + sum)
      | _, _ => none

/-- One rank describes exactly 8 files. -/
def specRankOk (r : String) : Bool := rankWidthSum r.toList == some 8

/-- The placement field has exactly 8 ranks of exactly 8 files each. -/
def specPlacementOk (s : String) : Bool :=
  (ranksOf s).length = 8 && (ranksOf s).all specRankOk

/-- The castling field draws its characters from K, Q, k, q, dash with
no repeated character. -/
def specCastlingOk (s : String) : Bool :=
  s.toList.all (fun c => c ∈ castleChars) && decide s.toList.Nodup

/-- The en-passant field is absent or names a square on rank 3 or
rank 6 (amended: the side to move is not consulted). -/
def specEnPassantOk (s : String) : Bool :=
  s == "-" ||
    match strToSquareIdx s with
    | some sq => decide (Square.rank sq = 2 ∨ Square.rank sq = 5)
    | none => false

/-- The amended FEN validity predicate of claim C7: exactly 6
space-separated fields, each field valid, the half-move clock an
integer at least 0 and the full-move number an integer at least 1. -/
def specFENOk (fen : String) : Bool :=
  match (splitOnChar ' ' (charTrim fen.toList)).map String.mk with
  | [p0, p1, p2, p3, p4, p5] =>
      specPlacementOk p0 &&
      (p1 == "w" || p1 == "b") &&
      specCastlingOk p2 &&
      specEnPassantOk p3 &&
      (match goAtoi p4 with | some n => decide (0 ≤ n) | none => false) &&
      (match goAtoi p5 with | some n => decide (1 ≤ n) | none => false)
  | _ => false

/-- The castling-rights text rebuilt from its four flags in the order
K, Q, k, q, with dash for the empty set (as the binary decoder does). -/
def rebuildRights (k q bk bq : Bool) : String :=
  let r := (if k then "K" else "") ++ (if q then "Q" else "") ++
    (if bk then "k" else "") ++ (if bq then "q" else "")
  if r = "" then "-" else r

/-- A castling-rights text that survives the binary round trip: it
equals its own rebuild from the flags the encoder extracts. -/
def normalizedRights (cr : String) : Prop :=
  cr = rebuildRights (canCastleChar cr 'K') (canCastleChar cr 'Q')
    (canCastleChar cr 'k') (canCastleChar cr 'q')

/-- The bare-kings FEN with half-move clock 300: the clock does not fit
in the single byte the binary encoding allots. -/
def fen300 : String := "7k/8/8/8/8/8/8/7K w - - 300 1"

/-- A position whose legal-move cache is already set (for the
write-once part of claim C5). -/
def posCachedEx : Position := { defaultPosition with validMoves := some [] }

/-- A decided game: the new game after White resigns. -/
def gameResigned : Game := NewGame.resign .white

/-!
Theorems.  Each claim of the specification is settled below; helper
lemmas carry no claim name.
-/

/-- C9: for every Position, the null-move transition returns a position
with the same board placement, the turn flipped to the other color, the
en-passant square cleared, the half-move clock incremented by one, and
the full-move count incremented by one exactly when the side to move
was Black. -/
theorem c9_null_move (pos : Position) :
    (pos.updateNull).board = pos.board ∧
    (pos.updateNull).turn = pos.turn.other ∧
    (pos.updateNull).enPassantSquare = NoSquare ∧
    (pos.updateNull).halfMoveClock = pos.halfMoveClock + 1 ∧
    (pos.updateNull).moveCount =
      (if pos.turn = .black then pos.moveCount + 1 else pos.moveCount) :=
  ⟨rfl, rfl, rfl, rfl, rfl⟩

/-- C5 counterexample: `ChangeTurn` is a public operation that changes
the `turn` field of its receiver in place, so the claim that every
public operation preserves the fields observed at construction fails
already on the starting position. -/
theorem c5_counterexample :
    ¬ ((StartingPosition.changeTurn).turn = StartingPosition.turn) := by
  decide

/-- C5 (amended): the only field the read-only interface writes is the
legal-move cache, written at most once — `ValidMoves` changes nothing
but the cache, and once the cache is set it returns the cached list and
leaves the position untouched — while `ChangeTurn` (and the unmarshal
methods, which overwrite the receiver wholesale) are exceptions:
`ChangeTurn` flips the receiver's `turn` field in place and changes
nothing else. -/
theorem c5_immutability_amended (pos : Position) (calcMoves : Position → List MoveData) :
    pos.changeTurn = { pos with turn := pos.turn.other } ∧
    (pos.validMovesOp calcMoves).2 =
      { pos with validMoves := some (pos.validMovesOp calcMoves).1 } ∧
    (∀ l, pos.validMoves = some l → pos.validMovesOp calcMoves = (l, pos)) := by
  refine ⟨rfl, ?_, ?_⟩
  · cases h : pos.validMoves with
    | none => simp [Position.validMovesOp, h]
    | some vm => cases pos with
      | mk b cr vm0 hm mc t ep => simp_all [Position.validMovesOp]
  · intro l hl
    cases pos with
    | mk b cr vm0 hm mc t ep => simp_all [Position.validMovesOp]

/-- C5 witness: on a position whose cache is set, `ValidMoves` returns
the cached list and leaves the position unchanged. -/
theorem c5_witness :
    posCachedEx.validMovesOp (fun _ => []) = ([], posCachedEx) :=
  (c5_immutability_amended posCachedEx (fun _ => [])).2.2 [] rfl

/-- C2 counterexample: on a decided game (White has resigned, Black
won), a subsequent `Draw(DrawOffer)` call overwrites the outcome —
`Draw` never consults the existing outcome. -/
theorem c2_counterexample :
    gameResigned.outcome ≠ .noOutcome ∧
    (gameResigned.draw .drawOffer).1.outcome ≠ gameResigned.outcome := by
  decide

/-- C2 (amended): once the outcome is decided, `Resign` leaves outcome
and method unchanged, but `Draw` does not check the existing outcome: a
call whose precondition is met (always, for `DrawOffer`) sets
outcome to Draw and the claimed method even on a decided game. -/
theorem c2_amended (g : Game) (color : Color) (h : g.outcome ≠ .noOutcome) :
    g.resign color = g ∧
    (g.draw .drawOffer).1.outcome = .draw ∧
    (g.draw .drawOffer).1.method = .drawOffer := by
  refine ⟨?_, rfl, rfl⟩
  unfold Game.resign
  rw [if_pos (Or.inl h)]

/-- C2 witness: the amended statement at the resigned game. -/
theorem c2_witness :
    gameResigned.resign .black = gameResigned ∧
    (gameResigned.draw .drawOffer).1.outcome = .draw ∧
    (gameResigned.draw .drawOffer).1.method = .drawOffer :=
  c2_amended gameResigned .black (by decide)

/-- C8: `Draw(DrawOffer)` always succeeds; `Draw(ThreefoldRepetition)`
succeeds exactly when the current position occurs at least 3 times
among the main-line positions; `Draw(FiftyMoveRule)` succeeds exactly
when the half-move clock is at least 100; every other method is
rejected; a rejected claim leaves the game (outcome, method, tree and
cursor) unchanged; a successful claim sets outcome Draw and the claimed
method. -/
theorem c8_manual_draw_claims (g : Game) :
    ((g.draw .drawOffer).2 = false ∧
      (g.draw .drawOffer).1 = { g with outcome := .draw, method := .drawOffer }) ∧
    ((g.draw .threefoldRepetition).2 = false ↔ 3 ≤ g.numOfRepetitions) ∧
    (3 ≤ g.numOfRepetitions →
      (g.draw .threefoldRepetition).1 =
        { g with outcome := .draw, method := .threefoldRepetition }) ∧
    (g.numOfRepetitions < 3 → g.draw .threefoldRepetition = (g, true)) ∧
    ((g.draw .fiftyMoveRule).2 = false ↔ 100 ≤ g.pos.halfMoveClock) ∧
    (100 ≤ g.pos.halfMoveClock →
      (g.draw .fiftyMoveRule).1 = { g with outcome := .draw, method := .fiftyMoveRule }) ∧
    (g.pos.halfMoveClock < 100 → g.draw .fiftyMoveRule = (g, true)) ∧
    (∀ m : Method, m ≠ .drawOffer → m ≠ .threefoldRepetition → m ≠ .fiftyMoveRule →
      g.draw m = (g, true)) := by
  refine ⟨⟨rfl, rfl⟩, ?_, ?_, ?_, ?_, ?_, ?_, ?_⟩
  · by_cases h : g.numOfRepetitions < 3 <;> simp [Game.draw, h] <;> omega
  · intro h
    simp [Game.draw, Nat.not_lt.mpr h]
  · intro h
    simp [Game.draw, h]
  · by_cases h : g.pos.halfMoveClock < 100 <;> simp [Game.draw, h] <;> omega
  · intro h
    simp [Game.draw, not_lt.mpr h]
  · intro h
    simp [Game.draw, h]
  · intro m h1 h2 h3
    cases m <;> simp_all [Game.draw]

/-- C8 witness: the fresh game has a single main-line position, so a
threefold-repetition claim is rejected and the game is unchanged. -/
theorem c8_witness :
    NewGame.draw .threefoldRepetition = (NewGame, true) :=
  (c8_manual_draw_claims NewGame).2.2.2.1 (by decide)

/-- C4 counterexample: with the cursor on the main-line node at depth 3,
the claim says the cursor stays there (it is its own nearest main-line
ancestor, as the source's walk-up loop computes), but
`NavigateToMainLine` moves it to the first move of the main line. -/
theorem c4_counterexample :
    (gameDeepMain.navigateToMainLine).currentMove ≠ claimedMainLineTarget gameDeepMain := by
  decide

/-- C4 (amended): `NavigateToMainLine` discards the walk-up result and
always moves the cursor to the first move of the main line (the root's
child 0) when the game has any move, and to the root otherwise; nothing
else changes. -/
theorem c4_navigate_amended (g : Game) :
    g.navigateToMainLine =
      { g with currentMove :=
          if (g.node g.rootMove).children.length = 0 then g.rootMove
          else (g.node g.rootMove).children.getD 0 g.rootMove } := by
  unfold Game.navigateToMainLine
  split_ifs <;> rfl

/-- C1 counterexample: the FEN-seeded bare-kings game with half-move
clock 150 is in progress with automatic draws enabled; the evaluation
order claim picks the seventy-five-move rule (the first matching
condition — fivefold repetition does not hold), but the code's later
insufficient-material check overwrites it, so the last matching
condition wins. -/
theorem c1_counterexample :
    gameKK.outcome = .noOutcome ∧ gameKK.ignoreAutomaticDraws = false ∧
    (gameKK.evaluatePositionStatus .noMethod).method = .insufficientMaterial ∧
    (claimedEvaluatePositionStatus gameKK .noMethod).method = .seventyFiveMoveRule ∧
    (gameKK.evaluatePositionStatus .noMethod).method ≠
      (claimedEvaluatePositionStatus gameKK .noMethod).method := by
  decide

/-- C1 (amended): for an in-progress game with automatic draws enabled,
the evaluation gives checkmate/stalemate priority, and then runs the
fivefold-repetition, seventy-five-move and insufficient-material checks
in that order but WITHOUT stopping at the first match: each later
matching condition overwrites the earlier one, so the decided method is
insufficient material first, else the seventy-five-move rule, else
fivefold repetition; none matching leaves the game in progress. -/
theorem c1_amended (g : Game) (status : Method)
    (h0 : g.outcome = .noOutcome) (h1 : g.method = .noMethod)
    (h2 : g.ignoreAutomaticDraws = false) :
    g.evaluatePositionStatus status =
      if status = .stalemate then { g with method := .stalemate, outcome := .draw }
      else if status = .checkmate then
        { g with method := .checkmate,
                 outcome := if g.pos.turn = .white then .blackWon else .whiteWon }
      else if g.pos.board.hasSufficientMaterial = false then
        { g with outcome := .draw, method := .insufficientMaterial }
      else if 150 ≤ g.pos.halfMoveClock then
        { g with outcome := .draw, method := .seventyFiveMoveRule }
      else if 5 ≤ g.numOfRepetitions then
        { g with outcome := .draw, method := .fivefoldRepetition }
      else g := by
  rcases g with ⟨nodes, root, cur, pos, outc, meth, ign⟩
  dsimp only at h0 h1 h2
  subst h0; subst h1; subst h2
  unfold Game.evaluatePositionStatus
  by_cases hs : status = .stalemate
  · simp [hs]
  by_cases hc : status = .checkmate
  · simp [hs, hc]
    cases pos.turn <;> simp
  by_cases hm : pos.board.hasSufficientMaterial = false <;>
    by_cases hcl : 150 ≤ pos.halfMoveClock <;>
      by_cases hr : 5 ≤ Game.numOfRepetitions ⟨nodes, root, cur, pos, .noOutcome, .noMethod, false⟩ <;>
        simp [hs, hc, hm, hcl, hr]

/-- C1 witness: the amended statement evaluated at the bare-kings game
(insufficient material wins over the seventy-five-move rule). -/
theorem c1_witness :
    gameKK.evaluatePositionStatus .noMethod =
      { gameKK with outcome := .draw, method := .insufficientMaterial } :=
  (c1_amended gameKK .noMethod rfl rfl rfl).trans (by decide)

/-- C3: evaluation of `PushMove` at the failing input.  After e2-e4 is
pushed, taken back, and pushed again, `findExistingMove` finds the
existing child (node 1), no duplicate is inserted into the root's
children, and yet the cursor is set to the freshly allocated node 2 —
a node outside the tree — rather than to the reused existing child as
the claim (and the reuse design of `findExistingMove` and
`addOrReorderMove`) requires. -/
theorem c3_push_existing_cursor :
    gameC3back.findExistingMove moveE4 = some 1 ∧
    gameC3again.nodes.length = 3 ∧
    (gameC3again.node gameC3again.rootMove).children = [1] ∧
    gameC3again.currentMove = 2 ∧
    gameC3again.currentMove ∉ (gameC3again.node gameC3again.rootMove).children := by
  decide

/-- Reading a freshly allocated slice yields its initial contents. -/
theorem readSlice_alloc (h : SliceHeap) (l : List MoveData) :
    readSlice (h ++ [l]) h.length = l := by
  rw [readSlice, List.getD_append_right _ _ _ _ (le_refl _)]
  simp

/-- Reading below a fresh allocation is unaffected by it. -/
theorem readSlice_alloc_lt (h : SliceHeap) (l : List MoveData) (i : Nat)
    (hi : i < h.length) : readSlice (h ++ [l]) i = readSlice h i := by
  rw [readSlice, readSlice, List.getD_append _ _ _ _ hi]

/-- Writing one slice does not change another. -/
theorem readSlice_write_ne (h : SliceHeap) (i j : Nat) (l : List MoveData)
    (hne : i ≠ j) : readSlice (writeSlice h i l) j = readSlice h j := by
  simp [readSlice, writeSlice, List.getD_eq_getElem?_getD, List.getElem?_set_ne hne]

/-- C10: `ValidMoves` returns a freshly allocated slice on each call.
On an uncached position the first call stores the engine list in the
cache and returns a distinct fresh copy; overwriting the returned slice
with arbitrary contents leaves the cached list unchanged; and a second
call returns another fresh slice whose contents equal the first call's,
with the cache field untouched. -/
theorem c10_valid_moves_fresh_slice (calcMoves mutL : List MoveData) (h : SliceHeap) :
    validMovesHeap calcMoves none h =
      (h.length + 1, some h.length, h ++ [calcMoves, calcMoves]) ∧
    readSlice (h ++ [calcMoves, calcMoves]) (h.length + 1) = calcMoves ∧
    readSlice (writeSlice (h ++ [calcMoves, calcMoves]) (h.length + 1) mutL)
      h.length = calcMoves ∧
    validMovesHeap calcMoves (some h.length)
        (writeSlice (h ++ [calcMoves, calcMoves]) (h.length + 1) mutL) =
      (h.length + 2, some h.length,
        writeSlice (h ++ [calcMoves, calcMoves]) (h.length + 1) mutL ++ [calcMoves]) ∧
    readSlice (writeSlice (h ++ [calcMoves, calcMoves]) (h.length + 1) mutL ++ [calcMoves])
      (h.length + 2) = calcMoves := by
  have halloc : readSlice (h ++ [calcMoves]) h.length = calcMoves := readSlice_alloc h calcMoves
  have happ : h ++ [calcMoves] ++ [calcMoves] = h ++ [calcMoves, calcMoves] := by simp
  have hcache : readSlice (h ++ [calcMoves, calcMoves]) h.length = calcMoves := by
    rw [← happ]
    rw [readSlice_alloc_lt _ _ _ (by simp)]
    exact halloc
  have hmut : readSlice (writeSlice (h ++ [calcMoves, calcMoves]) (h.length + 1) mutL)
      h.length = calcMoves := by
    rw [readSlice_write_ne _ _ _ _ (by omega)]
    exact hcache
  have hwlen : (writeSlice (h ++ [calcMoves, calcMoves]) (h.length + 1) mutL).length =
      h.length + 2 := by
    simp [writeSlice]
  refine ⟨?_, ?_, hmut, ?_, ?_⟩
  · simp only [validMovesHeap, allocSlice, halloc, happ]
    simp
  · rw [← happ]
    have h2 := readSlice_alloc (h ++ [calcMoves]) calcMoves
    simpa using h2
  · simp only [validMovesHeap, allocSlice, hmut, hwlen]
  · rw [show h.length + 2 = (writeSlice (h ++ [calcMoves, calcMoves]) (h.length + 1) mutL).length
        from hwlen.symm, readSlice_alloc]

/-- The board encoding always produces 96 bytes. -/
theorem boardMarshalBinary_length (b : Board) : (boardMarshalBinary b).length = 96 := by
  simp [boardMarshalBinary]

/-- Piece codes decode back to their piece. -/
theorem codeToPiece_pieceCode (p : Piece) : codeToPiece (pieceCode p) = some p := by
  cases p <;> rfl

/-- Decoding a list of piece codes recovers the pieces. -/
theorem decodePieces_map_pieceCode (l : List Piece) :
    decodePieces (l.map pieceCode) = some l := by
  induction l with
  | nil => rfl
  | cons p rest ih => simp [decodePieces, codeToPiece_pieceCode, ih]

/-- Reading all 64 squares of a 64-square board reproduces its list. -/
theorem range_map_pieceAt (b : Board) (hb : b.squares.length = 64) :
    (List.range 64).map (fun i => b.pieceAt (Int.ofNat i)) = b.squares := by
  apply List.ext_getElem
  · simp [hb]
  · intro i h1 h2
    simp only [List.getElem_map, List.getElem_range, Board.pieceAt, Int.toNat_ofNat]
    exact List.getD_eq_getElem b.squares .noPiece h2

/-- The 96-byte board encoding round-trips on 64-square boards. -/
theorem boardMarshal_roundtrip (b : Board) (hb : b.squares.length = 64) :
    boardUnmarshalBinary (boardMarshalBinary b) = some b := by
  have hlen : (boardMarshalBinary b).length = 96 := boardMarshalBinary_length b
  unfold boardUnmarshalBinary
  rw [if_neg (by omega)]
  have hmlen : ((List.range 64).map (fun i => pieceCode (b.pieceAt (Int.ofNat i)))).length = 64 := by
    simp
  have htake : (boardMarshalBinary b).take 64 =
      (List.range 64).map (fun i => pieceCode (b.pieceAt (Int.ofNat i))) := by
    unfold boardMarshalBinary
    rw [show (64 : Nat) = ((List.range 64).map
        (fun i => pieceCode (b.pieceAt (Int.ofNat i)))).length from hmlen.symm]
    exact List.take_left _ _
  rw [htake]
  have hmm : (List.range 64).map (fun i => pieceCode (b.pieceAt (Int.ofNat i))) =
      ((List.range 64).map (fun i => b.pieceAt (Int.ofNat i))).map pieceCode := by
    simp [List.map_map]
  rw [hmm, range_map_pieceAt b hb, decodePieces_map_pieceCode]
  cases b
  rfl

/-- Placing a piece preserves the board size. -/
theorem boardSet_length (b : Board) (sq : Square) (p : Piece) :
    (boardSet b sq p).squares.length = b.squares.length := by
  simp [boardSet]

/-- Applying a rank's assignments preserves the board size. -/
theorem assignsFold_length (assigns : List (Int × Piece)) (rk : Int) (b : Board) :
    ((assigns.foldl (fun b fp => boardSet b (NewSquare fp.1 rk) fp.2) b).squares.length) =
      b.squares.length := by
  induction assigns generalizing b with
  | nil => rfl
  | cons a rest ih =>
      rw [List.foldl_cons, ih, boardSet_length]

/-- The rank loop of `fenBoard` preserves the 64-square size. -/
theorem fenBoardFold_length (ranks : List String) (idxs : List Nat) (acc : Option Board)
    (hacc : ∀ b0, acc = some b0 → b0.squares.length = 64) (b : Board)
    (h : idxs.foldl (fenBoardStep ranks) acc = some b) : b.squares.length = 64 := by
  induction idxs generalizing acc with
  | nil => exact hacc b h
  | cons i rest ih =>
      rw [List.foldl_cons] at h
      refine ih _ ?_ h
      intro b0 hb0
      unfold fenBoardStep at hb0
      cases acc with
      | none => simp at hb0
      | some bb =>
          cases hfr : fenFormRank (ranks.getD i "") with
          | none => rw [hfr] at hb0; simp at hb0
          | some assigns =>
              rw [hfr] at hb0
              simp only [Option.some.injEq] at hb0
              rw [← hb0, assignsFold_length]
              exact hacc bb rfl

/-- A board produced by `fenBoard` has 64 squares. -/
theorem fenBoard_length (s : String) (b : Board) (h : fenBoard s = some b) :
    b.squares.length = 64 := by
  simp only [fenBoard] at h
  split_ifs at h with h8
  · refine fenBoardFold_length (ranksOf s) [0, 1, 2, 3, 4, 5, 6, 7] (some emptyBoard) ?_ b ?_
    · intro b0 h0
      cases h0
      simp [emptyBoard]
    · simpa using h

/-- `fenTurn` only produces White or Black. -/
theorem fenTurn_white_black (s : String) (c : Color) (h : fenTurn s = some c) :
    c = .white ∨ c = .black := by
  unfold fenTurn at h
  split_ifs at h <;> simp_all

/-- A square-name lookup lands in 0..63. -/
theorem strToSquareIdx_range (s : String) (sq : Square) (h : strToSquareIdx s = some sq) :
    (0 : Int) ≤ sq ∧ sq.toNat ≤ 63 := by
  unfold strToSquareIdx at h
  split at h
  case h_1 f r heq =>
    split_ifs at h with hb
    obtain ⟨h1, h2, h3, h4⟩ := hb
    have n1 : 97 ≤ f.toNat := by simp [Char.le_def] at h1; exact h1
    have n2 : f.toNat ≤ 104 := by simp [Char.le_def] at h2; exact h2
    have n3 : 49 ≤ r.toNat := by simp [Char.le_def] at h3; exact h3
    have n4 : r.toNat ≤ 56 := by simp [Char.le_def] at h4; exact h4
    have e1 : 'a'.toNat = 97 := rfl
    have e2 : '1'.toNat = 49 := rfl
    cases h
    rw [e1, e2]
    constructor
    · exact Int.natCast_nonneg _
    · rw [Int.toNat_natCast]
      omega
  case h_2 => simp at h

/-- An accepted en-passant field is the none sentinel or a square in
0..63. -/
theorem formEnPassant_range (s : String) (sq : Square) (h : formEnPassant s = some sq) :
    sq = NoSquare ∨ ((0 : Int) ≤ sq ∧ sq.toNat ≤ 63) := by
  simp only [formEnPassant] at h
  split_ifs at h with h1 h2
  · cases h
    exact Or.inl rfl
  · cases h
    right
    unfold strToSquare
    cases hidx : strToSquareIdx s with
    | none => simp [hidx]
    | some v => simpa [hidx] using strToSquareIdx_range s v hidx

/-- The fields of a FEN-decoded position: clock at least 0, count at
least 1, a White/Black turn, an absent or 0..63 en-passant square, a
64-square board and an unset move cache. -/
theorem decodeFEN_fields (s : String) (pos : Position) (h : decodeFEN s = some pos) :
    (0 : Int) ≤ pos.halfMoveClock ∧ (1 : Int) ≤ pos.moveCount ∧
    (pos.turn = .white ∨ pos.turn = .black) ∧
    (pos.enPassantSquare = NoSquare ∨
      ((0 : Int) ≤ pos.enPassantSquare ∧ pos.enPassantSquare.toNat ≤ 63)) ∧
    pos.board.squares.length = 64 ∧ pos.validMoves = none := by
  simp only [decodeFEN] at h
  split at h
  case h_2 => simp at h
  case h_1 p0 p1 p2 p3 p4 p5 =>
    split at h
    case h_2 => simp at h
    case h_1 =>
      split_ifs at h with hn1 hn2
      cases h
      dsimp only
      refine ⟨by omega, by omega, fenTurn_white_black _ _ (by assumption),
        formEnPassant_range _ _ (by assumption), fenBoard_length _ _ (by assumption), rfl⟩

set_option maxHeartbeats 2000000 in
/-- The binary encoding round-trips on positions whose fields fit the
encoding: a 64-square board, a White/Black turn, an absent or 0..63
en-passant square, a clock in 0..255, a count in 1..65535, and a
castling text in the canonical K, Q, k, q order. -/
theorem unmarshal_marshal (pos : Position)
    (hblen : pos.board.squares.length = 64)
    (hturn : pos.turn = .white ∨ pos.turn = .black)
    (hep : pos.enPassantSquare = NoSquare ∨
      ((0 : Int) ≤ pos.enPassantSquare ∧ pos.enPassantSquare.toNat ≤ 63))
    (h0 : (0 : Int) ≤ pos.halfMoveClock) (hclock : pos.halfMoveClock < 256)
    (h1 : (1 : Int) ≤ pos.moveCount) (hcount : pos.moveCount < 65536)
    (hrights : normalizedRights pos.castleRights)
    (hcache : pos.validMoves = none) :
    Position.unmarshalBinary pos.marshalBinary = some pos := by
  obtain ⟨bd, cr, vm, hm, mc, t, ep⟩ := pos
  dsimp only at *
  subst hcache
  have hB : (boardMarshalBinary bd).length = 96 := boardMarshalBinary_length bd
  have hform : Position.marshalBinary ⟨bd, cr, none, hm, mc, t, ep⟩ =
      boardMarshalBinary bd ++ [byteOfInt hm, (mc % 65536).toNat / 256,
        (mc % 65536).toNat % 256, byteOfInt ep,
        (if canCastleChar cr 'K' then 1 else 0) + (if canCastleChar cr 'Q' then 2 else 0) +
        (if canCastleChar cr 'k' then 4 else 0) + (if canCastleChar cr 'q' then 8 else 0) +
        (if t = .black then 16 else 0) + (if ep ≠ NoSquare then 32 else 0)] := by
    simp [Position.marshalBinary, uint16BE]
  have hlen : (Position.marshalBinary ⟨bd, cr, none, hm, mc, t, ep⟩).length = 101 := by
    rw [hform]
    simp [hB]
  unfold Position.unmarshalBinary
  rw [if_neg (by omega)]
  rw [hform]
  rw [show (96 : Nat) = (boardMarshalBinary bd).length from hB.symm,
      List.take_left, List.drop_left]
  rw [boardMarshal_roundtrip bd hblen]
  dsimp only
  unfold normalizedRights at hrights
  rcases hep with hE | ⟨hE0, hE1⟩
  · subst hE
    have hnn : (if NoSquare ≠ NoSquare then (32 : Nat) else 0) = 0 := by simp
    simp only [hnn, Option.some.injEq, Position.mk.injEq]
    rcases hturn with ht | ht <;> subst ht <;>
      refine ⟨trivial, ?_, trivial, by simp only [byteOfInt]; omega, by omega, ?_, ?_⟩ <;>
      (cases hK : canCastleChar cr 'K' <;> cases hQ : canCastleChar cr 'Q' <;>
       cases hk1 : canCastleChar cr 'k' <;> cases hq1 : canCastleChar cr 'q' <;>
       rw [hK, hQ, hk1, hq1] at hrights <;>
       (try simp only [hK, hQ, hk1, hq1, rebuildRights] at hrights ⊢) <;>
       (try norm_num at hrights) <;> (try norm_num) <;>
       first
         | (rw [hrights] <;> decide)
         | rfl
         | decide)
  · have hne : ep ≠ NoSquare := by
      intro hEq
      rw [hEq] at hE0
      simp only [NoSquare] at hE0
      omega
    have hepv : int8OfByte (byteOfInt ep) = ep := by
      simp only [byteOfInt, int8OfByte]
      split_ifs with hsplit
      · omega
      · exfalso
        omega
    simp only [if_pos hne, Option.some.injEq, Position.mk.injEq]
    rcases hturn with ht | ht <;> subst ht <;>
      refine ⟨trivial, ?_, trivial, by simp only [byteOfInt]; omega, by omega, ?_, ?_⟩ <;>
      (cases hK : canCastleChar cr 'K' <;> cases hQ : canCastleChar cr 'Q' <;>
       cases hk1 : canCastleChar cr 'k' <;> cases hq1 : canCastleChar cr 'q' <;>
       rw [hK, hQ, hk1, hq1] at hrights <;>
       (try simp only [hK, hQ, hk1, hq1, rebuildRights] at hrights ⊢) <;>
       (try norm_num at hrights) <;> (try norm_num) <;>
       first
         | (rw [hrights] <;> decide)
         | rfl
         | decide
         | exact hepv)

/-- C6 counterexample: the FEN `7k/8/8/8/8/8/8/7K w - - 300 1` decodes
to a position whose half-move clock is 300; the binary encoding stores
the clock in a single byte, so the round trip reproduces a position
whose FEN text reads clock 44, not 300. -/
theorem c6_counterexample :
    (decodeFEN fen300).map Position.fen = some "7k/8/8/8/8/8/8/7K w - - 300 1" ∧
    (decodeFEN fen300).bind
        (fun p => (Position.unmarshalBinary p.marshalBinary).map Position.fen) =
      some "7k/8/8/8/8/8/8/7K w - - 44 1" ∧
    ("7k/8/8/8/8/8/8/7K w - - 44 1" : String) ≠ "7k/8/8/8/8/8/8/7K w - - 300 1" := by
  refine ⟨by decide, by decide, by decide⟩

/-- C6 (amended): for every FEN-decoded position, MarshalBinary yields
exactly 101 bytes and UnmarshalBinary rejects every other length; the
round trip reproduces the position (and hence its FEN text) provided
the half-move clock fits one byte (< 256), the full-move count fits two
bytes (< 65536), and the castling-rights text is in the canonical
K, Q, k, q order the decoder rebuilds — beyond those bounds the clock
and count are truncated modulo 256 and 65536 and the rights text is
reordered. -/
theorem c6_binary_roundtrip_amended (s : String) (pos : Position)
    (h : decodeFEN s = some pos)
    (hclock : pos.halfMoveClock < 256) (hcount : pos.moveCount < 65536)
    (hrights : normalizedRights pos.castleRights) :
    pos.marshalBinary.length = 101 ∧
    (∀ d : List Nat, d.length ≠ 101 → Position.unmarshalBinary d = none) ∧
    Position.unmarshalBinary pos.marshalBinary = some pos ∧
    (Position.unmarshalBinary pos.marshalBinary).map Position.fen = some pos.fen := by
  obtain ⟨h0, h1, hturn, hep, hblen, hcache⟩ := decodeFEN_fields s pos h
  have hrt := unmarshal_marshal pos hblen hturn hep h0 hclock h1 hcount hrights hcache
  refine ⟨?_, ?_, hrt, by rw [hrt]; rfl⟩
  · have hB := boardMarshalBinary_length pos.board
    simp [Position.marshalBinary, uint16BE, hB]
  · intro d hd
    unfold Position.unmarshalBinary
    rw [if_pos hd]

/-- C6 witness: the starting position round-trips through the binary
encoding. -/
theorem c6_witness :
    Position.unmarshalBinary (StartingPosition.marshalBinary) = some StartingPosition :=
  (c6_binary_roundtrip_amended startFEN StartingPosition (by decide) (by decide)
    (by decide) (by unfold normalizedRights; decide)).2.2.1

/-- The rank parser's running count advances by the total character
width of the rank. -/
theorem fenFormRankAux_sum (cs : List Char) (count : Nat) (acc : List (Int × Piece)) :
    (fenFormRankAux cs count acc).map Prod.fst =
      (rankWidthSum cs).map (fun sum => count + sum) := by
  induction cs generalizing count acc with
  | nil => rfl
  | cons c rest ih =>
      by_cases hd : '1' ≤ c ∧ c ≤ '8'
      · simp only [fenFormRankAux, if_pos hd]
        rw [ih]
        cases hrw : rankWidthSum rest <;>
          simp [rankWidthSum, fenCharWidth, if_pos hd, hrw] <;> (try omega)
      · cases hp : fenCharToPiece c <;>
        first
          | (simp only [fenFormRankAux, if_neg hd, hp]
             simp [rankWidthSum, fenCharWidth, if_neg hd, hp]
             done)
          | (simp only [fenFormRankAux, if_neg hd, hp]
             rw [ih]
             cases hrw : rankWidthSum rest <;>
               simp [rankWidthSum, fenCharWidth, if_neg hd, hp, hrw] <;> (try omega))

/-- A rank parses exactly when its characters are valid and describe
exactly 8 files. -/
theorem fenFormRank_isSome (r : String) :
    (fenFormRank r).isSome = specRankOk r := by
  unfold fenFormRank specRankOk
  have h := fenFormRankAux_sum r.toList 0 []
  cases ha : fenFormRankAux r.toList 0 [] with
  | none =>
      rw [ha] at h
      cases hrw : rankWidthSum r.toList with
      | none => simp [hrw]
      | some sum => rw [hrw] at h; simp at h
  | some p =>
      rw [ha] at h
      cases hrw : rankWidthSum r.toList with
      | none => rw [hrw] at h; simp at h
      | some sum =>
          rw [hrw] at h
          obtain ⟨count, acc⟩ := p
          simp at h
          subst h
          by_cases h8 : count = 8 <;> simp [h8]

/-- The rank loop succeeds exactly when every visited rank parses. -/
theorem fenBoardFold_isSome (ranks : List String) (idxs : List Nat) (acc : Option Board) :
    (idxs.foldl (fenBoardStep ranks) acc).isSome =
      (acc.isSome && idxs.all (fun i => (fenFormRank (ranks.getD i "")).isSome)) := by
  induction idxs generalizing acc with
  | nil => simp
  | cons i rest ih =>
      rw [List.foldl_cons, ih]
      have hstep : (fenBoardStep ranks acc i).isSome =
          (acc.isSome && (fenFormRank (ranks.getD i "")).isSome) := by
        unfold fenBoardStep
        cases acc with
        | none => simp
        | some b =>
            cases hfr : fenFormRank (ranks.getD i "") with
            | none => simp [hfr]
            | some assigns => simp [hfr]
      rw [hstep, List.all_cons]
      cases acc.isSome <;> cases (fenFormRank (ranks.getD i "")).isSome <;> simp

/-- The placement field parses exactly when it has 8 ranks of 8 files
each. -/
theorem fenBoard_isSome (s : String) :
    (fenBoard s).isSome = specPlacementOk s := by
  unfold fenBoard specPlacementOk
  by_cases h8 : (ranksOf s).length = 8
  · rw [if_neg (by omega), fenBoardFold_isSome]
    have hall : ([0, 1, 2, 3, 4, 5, 6, 7].all
          (fun i => (fenFormRank ((ranksOf s).getD i "")).isSome)) =
        (ranksOf s).all specRankOk := by
      rcases hr : ranksOf s with _ | ⟨r0, _ | ⟨r1, _ | ⟨r2, _ | ⟨r3, _ | ⟨r4, _ | ⟨r5, _ |
        ⟨r6, _ | ⟨r7, rest⟩⟩⟩⟩⟩⟩⟩⟩ <;> rw [hr] at h8 <;> simp_all [fenFormRank_isSome]
    rw [hall]
    simp [h8]
  · rw [if_pos (by omega)]
    simp [h8]

/-- The castling field parses exactly when its characters are drawn
from K, Q, k, q, dash with no repetition. -/
theorem formCastleRights_isSome (s : String) :
    (formCastleRights s).isSome = specCastlingOk s := by
  unfold formCastleRights specCastlingOk
  by_cases hdup : castleChars.any (fun c => 1 < s.toList.count c)
  · rw [if_pos hdup]
    simp only [List.any_eq_true] at hdup
    obtain ⟨c, hc, hcount⟩ := hdup
    simp only [decide_eq_true_eq] at hcount
    have hnotnodup : ¬ s.toList.Nodup := by
      rw [List.nodup_iff_count_le_one]
      push_neg
      exact ⟨c, hcount⟩
    simp only [Option.isSome_none, Bool.false_eq, Bool.and_eq_false_iff]
    right
    simpa using hnotnodup
  · rw [if_neg hdup]
    by_cases hall : s.toList.all (fun c => decide (c ∈ castleChars))
    · rw [if_pos hall]
      have hnodup : s.toList.Nodup := by
        rw [List.nodup_iff_count_le_one]
        intro a
        by_cases hmem : a ∈ s.toList
        · have hacast : a ∈ castleChars := by
            simp only [List.all_eq_true, decide_eq_true_eq] at hall
            exact hall a hmem
          simp only [List.any_eq_true, decide_eq_true_eq] at hdup
          push_neg at hdup
          exact hdup a hacast
        · rw [List.count_eq_zero_of_not_mem hmem]
          omega
      simp only [Option.isSome_some]
      symm
      rw [Bool.and_eq_true]
      exact ⟨hall, by simpa using hnodup⟩
    · rw [if_neg hall]
      simp only [Option.isSome_none, Bool.false_eq]
      simp only [Bool.and_eq_false_iff]
      left
      simpa using hall

/-- The turn field parses exactly when it is `w` or `b`. -/
theorem fenTurn_isSome (s : String) :
    (fenTurn s).isSome = (s == "w" || s == "b") := by
  unfold fenTurn
  split_ifs with h1 h2 <;> simp_all

/-- The en-passant field parses exactly when it is absent or names a
square on rank 3 or rank 6 (the side to move is never consulted). -/
theorem formEnPassant_isSome (s : String) :
    (formEnPassant s).isSome = specEnPassantOk s := by
  simp only [formEnPassant, specEnPassantOk]
  by_cases hdash : s = "-"
  · simp [hdash]
  · rw [if_neg hdash]
    cases hidx : strToSquareIdx s with
    | none =>
        have h0 : strToSquare s = 0 := by simp [strToSquare, hidx]
        rw [h0]
        norm_num [Square.rank, NoSquare]
        simp [hdash]
    | some v =>
        have h0 : strToSquare s = v := by simp [strToSquare, hidx]
        rw [h0]
        have hv := strToSquareIdx_range s v hidx
        have hvne : ¬(v = NoSquare) := by
          intro hEq
          rw [hEq] at hv
          unfold NoSquare at hv
          exact absurd hv.1 (by norm_num)
        by_cases hrk : Square.rank v = 2 ∨ Square.rank v = 5
        · rw [if_neg (by tauto)]
          simp [hrk, hdash]
        · rw [if_pos (by tauto)]
          simp [hrk, hdash]

set_option maxHeartbeats 1000000 in
/-- C7 (amended): FEN decoding returns a Position exactly when the
input has exactly 6 space-separated fields; the placement field has
exactly 8 ranks (one trailing slash tolerated) each describing exactly
8 files; the turn is `w` or `b`; the castling field's characters are
drawn from K, Q, k, q, dash with no repetition; the en-passant field is
absent or names a square on rank 3 or rank 6 (the side to move is NOT
checked against it); the half-move clock parses as an integer at least
0; and the full-move number parses as an integer at least 1 — and
otherwise returns an error with no partially-built position (the ASCII
hypothesis reflects that the Go parser walks bytes where this embedding
walks characters; the two coincide on ASCII input). -/
theorem c7_fen_validation_amended (fen : String)
    (hascii : fen.toList.all (fun c => c.toNat < 128)) :
    (decodeFEN fen).isSome = specFENOk fen := by
  simp only [decodeFEN, specFENOk]
  rcases hparts : (splitOnChar ' ' (charTrim fen.toList)).map String.mk with
    _ | ⟨p0, _ | ⟨p1, _ | ⟨p2, _ | ⟨p3, _ | ⟨p4, _ | ⟨p5, _ | ⟨p6, rest⟩⟩⟩⟩⟩⟩⟩ <;>
    simp only []
  case cons.cons.cons.cons.cons.cons.nil =>
    rw [← fenBoard_isSome p0, ← fenTurn_isSome p1, ← formCastleRights_isSome p2,
        ← formEnPassant_isSome p3]
    cases hb : fenBoard p0 <;> cases ht : fenTurn p1 <;> cases hr : formCastleRights p2 <;>
      cases hsq : formEnPassant p3 <;> cases hm : goAtoi p4 <;> cases hc : goAtoi p5 <;>
      simp [hb, ht, hr, hsq, hm, hc] <;>
      (try split_ifs <;> simp_all)
  all_goals rfl

/-- C7 counterexample: the integral claim requires the en-passant field
to match the side not to move, but `decodeFEN` accepts a FEN whose
en-passant square is on rank 3 (a White double push) with White to
move. -/
theorem c7_counterexample :
    (decodeFEN fenBadEp).isSome = true ∧ claimedEnPassantOk "w" "e3" = false := by
  refine ⟨by decide, by decide⟩

/-- C7 witness: the amended characterization evaluated at the starting
FEN (both sides true). -/
theorem c7_witness :
    (decodeFEN startFEN).isSome = specFENOk startFEN :=
  c7_fen_validation_amended startFEN (by decide)
